import Mathlib

/-!
Verification of the chatty backend's room membership and message fan-out
subsystem, together with the HTTP create-message pipeline and the
Socket.IO join/leave event handlers.

The membership index (Room Registry / Connection Session) is the room
bookkeeping performed by the Socket.IO server on `enter_room`,
`leave_room` and disconnect; its implementation is not part of this
repository's sources, so it is modelled from the spec (section 4.1).
The join/leave handlers (`main.py`), the message schema validation
(`schemas/message.py`), the `Message` model validation
(`models/message.py`) and the create-message endpoint
(`routers/messages.py`) are embedded from the source.
-/

namespace Chatty

/-- Connection identifier (a Socket.IO sid). -/
abbrev Conn := String

/-- Room identifier; equals the chatroom's persisted identifier. -/
abbrev Room := String

/-- Insert an element into a set represented as a duplicate-free list;
no-op when already present. -/
def insertUniq (l : List String) (v : String) : List String :=
  if v ∈ l then l else l ++ [v]

/-- Remove every occurrence of an element from a list. -/
def removeAll (l : List String) (v : String) : List String :=
  l.filter (fun x => decide (x ≠ v))

/-- An association from string keys to string sets (lists). -/
abbrev Assoc := List (String × List String)

/-- Keys of an association list. -/
def keys (l : Assoc) : List String := l.map Prod.fst

/-- Look up a key, defaulting to the empty set (dict.get(k, set())). -/
def lookupD (l : Assoc) (k : String) : List String :=
  match l with
  | [] => []
  | (k', v) :: t => if k' = k then v else lookupD t k

/-- Add `v` to the set stored at key `k`, creating the entry lazily. -/
def addToAssoc (l : Assoc) (k v : String) : Assoc :=
  match l with
  | [] => [(k, [v])]
  | (k', v') :: t =>
    if k' = k then (k', insertUniq v' v) :: t
    else (k', v') :: addToAssoc t k v

/-- Remove `v` from the set stored at key `k`; if the set becomes
empty the entry is pruned. -/
def removePrune (l : Assoc) (k v : String) : Assoc :=
  match l with
  | [] => []
  | (k', v') :: t =>
    if k' = k then
      if removeAll v' v = [] then t else (k', removeAll v' v) :: t
    else (k', v') :: removePrune t k v

/-- Remove `v` from the set stored at key `k`, keeping the entry even
when its set becomes empty. -/
def removeNoPrune (l : Assoc) (k v : String) : Assoc :=
  match l with
  | [] => []
  | (k', v') :: t =>
    if k' = k then (k', removeAll v' v) :: t
    else (k', v') :: removeNoPrune t k v

/-- Delete the entry stored at key `k` entirely. -/
def eraseKey (l : Assoc) (k : String) : Assoc :=
  l.filter (fun p => decide (p.1 ≠ k))

/-- Modelled from the spec: the bidirectional membership index kept by
the Event Dispatcher — `registry` maps `room_id → set of connection_id`
and `session` maps `connection_id → set of room_id` (the inverse
index).  This is the room bookkeeping the Socket.IO server performs;
its implementation is not among this repository's sources. -/
structure MState where
  registry : Assoc
  session : Assoc
deriving DecidableEq, Repr

/-- The initial membership state: no rooms, no sessions. -/
def MState.empty : MState := ⟨[], []⟩

/-- Modelled from the spec: `Join(connection_id, room_id)` — adds the
connection to `Registry[room_id]` and the room to
`Session[connection_id]`; idempotent. -/
def join (s : MState) (c : Conn) (r : Room) : MState :=
  ⟨addToAssoc s.registry r c, addToAssoc s.session c r⟩

/-- Modelled from the spec: `Leave(connection_id, room_id)` — removes
from both indexes; if `Registry[room_id]` becomes empty the entry is
pruned; idempotent. -/
def leave (s : MState) (c : Conn) (r : Room) : MState :=
  ⟨removePrune s.registry r c, removeNoPrune s.session c r⟩

/-- Modelled from the spec: `DropConnection(connection_id)` — removes
the connection from every room in `Session[connection_id]`, then
clears `Session[connection_id]`; safe when never joined. -/
def dropConnection (s : MState) (c : Conn) : MState :=
  ⟨(lookupD s.session c).foldl (fun reg r => removePrune reg r c) s.registry,
   eraseKey s.session c⟩

/-- Modelled from the spec: `Members(room_id)` — the point-in-time
snapshot of the room's connection set used for delivery. -/
def members (s : MState) (r : Room) : List Conn :=
  lookupD s.registry r

/-- The set of rooms a connection has joined (`Session[connection_id]`). -/
def roomsOf (s : MState) (c : Conn) : List Room :=
  lookupD s.session c

/-- Whether the association has an entry for key `k`. -/
def hasKey (l : Assoc) (k : String) : Bool :=
  l.any (fun p => p.1 == k)

/-- Membership operations, for reasoning about arbitrary finite
sequences of Join/Leave/DropConnection. -/
inductive Op where
  | join (c : Conn) (r : Room)
  | leave (c : Conn) (r : Room)
  | drop (c : Conn)
deriving DecidableEq, Repr

/-- Apply one membership operation. -/
def applyOp (s : MState) : Op → MState
  | .join c r => join s c r
  | .leave c r => leave s c r
  | .drop c => dropConnection s c

/-- Run a sequence of membership operations from the empty state. -/
def run (ops : List Op) : MState :=
  ops.foldl applyOp MState.empty

/-- All stored sets are non-empty (registry entries are pruned when empty,
so a reachable registry never holds an empty set). -/
def NEvals (l : Assoc) : Prop := ∀ p ∈ l, p.2 ≠ []

/-- Well-formed membership state: both indexes are genuine dictionaries
(duplicate-free keys) and registry sets are non-empty (they are pruned
when emptied). -/
def WF (s : MState) : Prop :=
  (keys s.registry).Nodup ∧ (keys s.session).Nodup ∧ NEvals s.registry

/-- The spec's inverse invariant:
`connection_id ∈ Registry[room_id] ⇔ room_id ∈ Session[connection_id]`. -/
def Inv (s : MState) : Prop :=
  ∀ c r, c ∈ lookupD s.registry r ↔ r ∈ lookupD s.session c

/-! Embedding of the persisted data model and the HTTP create-message
pipeline (`chatty/schemas/message.py`, `chatty/models/message.py`,
`chatty/routers/messages.py`) and of the Socket.IO join/leave event
handlers (`chatty/main.py`). -/

/-- Characters stripped by Python's str.strip (whitespace). -/
def isPySpace (c : Char) : Bool :=
  c = ' ' || c = '\t' || c = '\n' || c = '\r' || c = '\x0b' || c = '\x0c'

/-- Python's str.strip(): removes leading and trailing whitespace. -/
def pyStrip (s : String) : String :=
  ⟨((s.data.dropWhile isPySpace).reverse.dropWhile isPySpace).reverse⟩

/-- Python truthiness of an optional string field: `None` and the empty
string are falsy (`not v`). -/
def strFalsy : Option String → Bool
  | none => true
  | some s => s.isEmpty

/-- A persisted message row (`Message` model): id, text, owning user and
chatroom, reply flag and optional parent reference. -/
structure MessageRow where
  id : String
  message_text : String
  user_id : String
  chatroom_id : String
  is_reply : Bool
  parent_message_id : Option String
deriving DecidableEq, Repr

/-- The persistence store as seen by the create-message endpoint: the
existing user ids, chatroom ids, and message rows. -/
structure DB where
  users : List String
  chatrooms : List String
  messages : List MessageRow
deriving DecidableEq, Repr

/-- The body of a POST /messages/ request (`MessageCreateRequest`). -/
structure MessageCreateRequest where
  message_text : String
  user_id : String
  chatroom_id : String
  is_reply : Bool
  parent_message_id : Option String
deriving DecidableEq, Repr

/-- Validation failures raised by the Pydantic schema (HTTP 422). -/
inductive ValError where
  | fieldConstraint
  | textBlank
  | parentRequired
  | parentNotAllowed
deriving DecidableEq, Repr

/-- Embeds the `message_text` Field constraints (min_length=1,
max_length=1024) and the `validate_message_text` validator of
`MessageCreateRequest`: rejects empty or whitespace-only text and
returns the stripped text. -/
def validate_message_text (v : String) : Except ValError String :=
  if v.length < 1 then .error .fieldConstraint
  else if 1024 < v.length then .error .fieldConstraint
  else if v.isEmpty || (pyStrip v).isEmpty then .error .textBlank
  else .ok (pyStrip v)

/-- Embeds the `validate_parent_message_id` validator of
`MessageCreateRequest`: `parent_message_id` must be truthy when
`is_reply` and falsy otherwise. -/
def validate_parent_message_id (is_reply : Bool) (v : Option String) :
    Except ValError (Option String) :=
  if is_reply && strFalsy v then .error .parentRequired
  else if !is_reply && !strFalsy v then .error .parentNotAllowed
  else .ok v

/-- Pydantic validation of a create-message request body, as FastAPI
performs it before the endpoint runs. -/
def validateRequest (md : MessageCreateRequest) :
    Except ValError MessageCreateRequest :=
  match validate_message_text md.message_text with
  | .error e => .error e
  | .ok t =>
    match validate_parent_message_id md.is_reply md.parent_message_id with
    | .error e => .error e
    | .ok p => .ok { md with message_text := t, parent_message_id := p }

/-- Embeds `Message._validate_message_text` and the reply-logic checks of
`Message.__init__`; `false` means a ValueError is raised. -/
def messageInitOk (message_text : String) (is_reply : Bool)
    (parent_message_id : Option String) : Bool :=
  !message_text.isEmpty && !(pyStrip message_text).isEmpty &&
    message_text.length ≤ 1024 &&
    !(is_reply && strFalsy parent_message_id) &&
    !(!is_reply && !strFalsy parent_message_id)

/-- Error outcomes of the create-message endpoint. -/
inductive CreateError where
  | validation (e : ValError)
  | userNotFound
  | chatroomNotFound
  | parentNotFound
  | badRequest
deriving DecidableEq, Repr

/-- Observable side effects of the create-message endpoint, in program
order: database lookups, the durable commit, per-member Socket.IO
delivery of `new_message`, and error logging. -/
inductive Effect where
  | dbQueryUser (id : String)
  | dbQueryChatroom (id : String)
  | dbQueryMessage (id : String)
  | dbCommit (m : MessageRow)
  | deliver (target : Conn) (m : MessageRow)
  | logError (msg : String)
deriving DecidableEq, Repr

instance : DecidableEq (Except CreateError MessageRow) := fun a b =>
  match a, b with
  | .ok x, .ok y =>
    if h : x = y then .isTrue (by rw [h]) else .isFalse (by simp [h])
  | .error x, .error y =>
    if h : x = y then .isTrue (by rw [h]) else .isFalse (by simp [h])
  | .ok _, .error _ => .isFalse (by simp)
  | .error _, .ok _ => .isFalse (by simp)

/-- Result of the create-message endpoint: HTTP outcome, resulting
database state, and the ordered effect trace. -/
structure CMResult where
  result : Except CreateError MessageRow
  db : DB
  trace : List Effect
deriving DecidableEq, Repr

/-- `db.query(Message).filter(Message.id == mid).first()`. -/
def findMessage (db : DB) (mid : String) : Option MessageRow :=
  db.messages.find? (fun m => m.id == mid)

/-- The message row built by `Message(...)` and persisted by
`db.add`/`db.commit`; `newId` is the generated UUID primary key. -/
def newRow (md : MessageCreateRequest) (newId : String) : MessageRow :=
  ⟨newId, md.message_text, md.user_id, md.chatroom_id,
   md.is_reply, md.parent_message_id⟩

/-- The tail of `create_message` after the existence checks: the
`Message(...)` construction (a ValueError becomes a 400 after rollback),
`db.add`/`db.commit`, and the `new_message` emission to the chatroom's
room.  The per-member fan-out of the room emission is Modelled from the
spec (delivery targets the snapshot of `Members(chatroom_id)`); a failed
emission is caught, logged, and ignored (`emitOk = false`). -/
def finishCreate (ms : MState) (db : DB) (md : MessageCreateRequest)
    (newId : String) (emitOk : Bool) (pre : List Effect) : CMResult :=
  if messageInitOk md.message_text md.is_reply md.parent_message_id then
    match emitOk with
    | true =>
      ⟨.ok (newRow md newId),
       { db with messages := db.messages ++ [newRow md newId] },
       pre ++ Effect.dbCommit (newRow md newId) ::
         (members ms md.chatroom_id).map
           (fun c => Effect.deliver c (newRow md newId))⟩
    | false =>
      ⟨.ok (newRow md newId),
       { db with messages := db.messages ++ [newRow md newId] },
       pre ++ [Effect.dbCommit (newRow md newId), Effect.logError "emit"]⟩
  else ⟨.error .badRequest, db, pre⟩

/-- Embeds `create_message` from `chatty/routers/messages.py`: user
existence check, chatroom existence check, parent existence check for
replies (by message id only), then persist and broadcast.  `newId` is
the generated UUID primary key; `emitOk` is whether the Socket.IO
emission succeeds. -/
def create_message (ms : MState) (db : DB) (md : MessageCreateRequest)
    (newId : String) (emitOk : Bool) : CMResult :=
  if md.user_id ∈ db.users then
    if md.chatroom_id ∈ db.chatrooms then
      if md.is_reply && !strFalsy md.parent_message_id then
        match findMessage db (md.parent_message_id.getD "") with
        | none =>
          ⟨.error .parentNotFound, db,
           [.dbQueryUser md.user_id, .dbQueryChatroom md.chatroom_id,
            .dbQueryMessage (md.parent_message_id.getD "")]⟩
        | some _ =>
          finishCreate ms db md newId emitOk
            [.dbQueryUser md.user_id, .dbQueryChatroom md.chatroom_id,
             .dbQueryMessage (md.parent_message_id.getD "")]
      else
        finishCreate ms db md newId emitOk
          [.dbQueryUser md.user_id, .dbQueryChatroom md.chatroom_id]
    else
      ⟨.error .chatroomNotFound, db,
       [.dbQueryUser md.user_id, .dbQueryChatroom md.chatroom_id]⟩
  else ⟨.error .userNotFound, db, [.dbQueryUser md.user_id]⟩

/-- The full POST /messages/ pipeline: Pydantic validation (HTTP 422 on
failure, endpoint never runs), then the endpoint body. -/
def handleCreateMessage (ms : MState) (db : DB) (md : MessageCreateRequest)
    (newId : String) (emitOk : Bool) : CMResult :=
  match validateRequest md with
  | .error e => ⟨.error (.validation e), db, []⟩
  | .ok md' => create_message ms db md' newId emitOk

/-- Socket.IO events emitted by the join/leave handlers, each with its
target connection. -/
inductive OutEvent where
  | error (target : Conn) (message : String)
  | joined (target : Conn) (chatroom_id : String)
  | left (target : Conn) (chatroom_id : String)
deriving DecidableEq, Repr

/-- Result of a join/leave event handler: membership state, emitted
Socket.IO events, and database effects (the handlers perform none). -/
structure HandlerResult where
  state : MState
  events : List OutEvent
  dbEffects : List Effect
deriving DecidableEq, Repr

/-- Payload of a join/leave Socket.IO event; `data.get` returns `None`
for an absent key. -/
structure EventPayload where
  user_id : Option String
  chatroom_id : Option String
deriving DecidableEq, Repr

/-- The error message for a malformed join/leave payload. -/
def requiredMsg : String := "user_id and chatroom_id are required"

/-- Embeds the `join` Socket.IO handler from `chatty/main.py`: rejects a
falsy `user_id` or `chatroom_id` with an error event to the issuing sid,
otherwise enters the room (keyed by `chatroom_id`) and acknowledges with
a `joined` event to the issuing sid only.  No persistence-store access
occurs. -/
def joinHandler (s : MState) (sid : Conn) (data : EventPayload) :
    HandlerResult :=
  if strFalsy data.user_id || strFalsy data.chatroom_id then
    ⟨s, [.error sid requiredMsg], []⟩
  else
    let cid := data.chatroom_id.getD ""
    ⟨join s sid cid, [.joined sid cid], []⟩

/-- Embeds the `leave` Socket.IO handler from `chatty/main.py`:
symmetric to `join`, leaving the room and acknowledging with a `left`
event to the issuing sid only. -/
def leaveHandler (s : MState) (sid : Conn) (data : EventPayload) :
    HandlerResult :=
  if strFalsy data.user_id || strFalsy data.chatroom_id then
    ⟨s, [.error sid requiredMsg], []⟩
  else
    let cid := data.chatroom_id.getD ""
    ⟨leave s sid cid, [.left sid cid], []⟩

/-- Embeds the `disconnect` Socket.IO handler from `chatty/main.py`
together with the room cleanup the Socket.IO server performs
(Modelled from the spec: `OnDisconnect` calls `DropConnection`). -/
def disconnectHandler (s : MState) (sid : Conn) : MState :=
  dropConnection s sid

/-- Whether an effect is a per-member Socket.IO delivery. -/
def isDeliver : Effect → Bool
  | .deliver _ _ => true
  | _ => false

/-- Whether an effect is a database commit. -/
def isCommit : Effect → Bool
  | .dbCommit _ => true
  | _ => false

/-- Every delivery of a message in the trace is preceded by the durable
commit of that same message. -/
def emitsAfterCommit (tr : List Effect) : Prop :=
  ∀ (i : Nat) (c : Conn) (m : MessageRow),
    tr[i]? = some (Effect.deliver c m) →
    ∃ j : Nat, j < i ∧ tr[j]? = some (Effect.dbCommit m)

/-! Basic lemmas about the set and association operations. -/

theorem mem_insertUniq {l : List String} {a v : String} :
    a ∈ insertUniq l v ↔ a = v ∨ a ∈ l := by
  unfold insertUniq
  split
  · constructor
    · exact fun h => Or.inr h
    · rintro (rfl | h)
      · assumption
      · exact h
  · simp [or_comm]

theorem mem_removeAll {l : List String} {a v : String} :
    a ∈ removeAll l v ↔ a ∈ l ∧ a ≠ v := by
  simp [removeAll, List.mem_filter]

theorem self_mem_insertUniq {l : List String} {v : String} :
    v ∈ insertUniq l v :=
  mem_insertUniq.mpr (Or.inl rfl)

theorem self_not_mem_removeAll {l : List String} {v : String} :
    v ∉ removeAll l v := by
  intro h
  exact (mem_removeAll.mp h).2 rfl

theorem insertUniq_eq_self {l : List String} {v : String} (h : v ∈ l) :
    insertUniq l v = l := by
  simp [insertUniq, h]

theorem removeAll_eq_self {l : List String} {v : String} (h : v ∉ l) :
    removeAll l v = l := by
  unfold removeAll
  apply List.filter_eq_self.mpr
  intro a ha
  simp only [decide_eq_true_eq]
  exact fun heq => h (heq ▸ ha)

theorem insertUniq_idem {l : List String} {v : String} :
    insertUniq (insertUniq l v) v = insertUniq l v :=
  insertUniq_eq_self self_mem_insertUniq

theorem removeAll_idem {l : List String} {v : String} :
    removeAll (removeAll l v) v = removeAll l v :=
  removeAll_eq_self self_not_mem_removeAll

theorem insertUniq_ne_nil {l : List String} {v : String} :
    insertUniq l v ≠ [] := by
  intro h
  exact (by simpa [h] using @self_mem_insertUniq l v)

theorem lookupD_eq_nil_of_not_mem_keys {l : Assoc} {k : String}
    (h : k ∉ keys l) : lookupD l k = [] := by
  induction l with
  | nil => rfl
  | cons p t ih =>
    obtain ⟨k', v⟩ := p
    simp only [keys, List.map_cons, List.mem_cons, not_or] at h
    simp only [lookupD, if_neg (fun he : k' = k => h.1 he.symm)]
    exact ih (by simpa [keys] using h.2)

theorem lookupD_addToAssoc (l : Assoc) (k v k' : String) :
    lookupD (addToAssoc l k v) k' =
      if k = k' then insertUniq (lookupD l k) v else lookupD l k' := by
  induction l with
  | nil =>
    by_cases hk : k = k' <;> simp [addToAssoc, lookupD, hk, insertUniq]
  | cons p t ih =>
    obtain ⟨k0, v0⟩ := p
    by_cases h0 : k0 = k
    · subst h0
      by_cases hk : k0 = k'
      · subst hk
        simp [addToAssoc, lookupD]
      · simp [addToAssoc, lookupD, hk]
    · by_cases hk : k = k'
      · subst hk
        simp [addToAssoc, lookupD, h0, ih]
      · simp [addToAssoc, lookupD, h0, hk, ih]

theorem lookupD_removeNoPrune (l : Assoc) (k v k' : String) :
    lookupD (removeNoPrune l k v) k' =
      if k = k' then removeAll (lookupD l k) v else lookupD l k' := by
  induction l with
  | nil =>
    by_cases hk : k = k' <;> simp [removeNoPrune, lookupD, hk, removeAll]
  | cons p t ih =>
    obtain ⟨k0, v0⟩ := p
    by_cases h0 : k0 = k
    · subst h0
      by_cases hk : k0 = k'
      · subst hk
        simp [removeNoPrune, lookupD]
      · simp [removeNoPrune, lookupD, hk]
    · by_cases hk : k = k'
      · subst hk
        simp [removeNoPrune, lookupD, h0, ih]
      · simp [removeNoPrune, lookupD, h0, hk, ih]

theorem lookupD_removePrune {l : Assoc} (hnd : (keys l).Nodup)
    (k v k' : String) :
    lookupD (removePrune l k v) k' =
      if k = k' then removeAll (lookupD l k) v else lookupD l k' := by
  induction l with
  | nil =>
    by_cases hk : k = k' <;> simp [removePrune, lookupD, hk, removeAll]
  | cons p t ih =>
    obtain ⟨k0, v0⟩ := p
    simp only [keys, List.map_cons, List.nodup_cons] at hnd
    by_cases h0 : k0 = k
    · subst h0
      by_cases he : removeAll v0 v = []
      · by_cases hk : k0 = k'
        · subst hk
          have hnil : lookupD t k0 = [] :=
            lookupD_eq_nil_of_not_mem_keys (by simpa [keys] using hnd.1)
          simp [removePrune, lookupD, he, hnil]
        · simp [removePrune, he, lookupD, hk]
      · by_cases hk : k0 = k'
        · subst hk
          simp [removePrune, he, lookupD]
        · simp [removePrune, he, lookupD, hk]
    · by_cases hk : k = k'
      · subst hk
        simp [removePrune, lookupD, h0, ih (by simpa [keys] using hnd.2)]
      · simp [removePrune, lookupD, h0, hk, ih (by simpa [keys] using hnd.2)]

theorem lookupD_eraseKey (l : Assoc) (k k' : String) :
    lookupD (eraseKey l k) k' =
      if k = k' then [] else lookupD l k' := by
  induction l with
  | nil => by_cases hk : k = k' <;> simp [eraseKey, lookupD, hk]
  | cons p t ih =>
    obtain ⟨k0, v0⟩ := p
    by_cases h0 : k0 = k
    · subst h0
      by_cases hk : k0 = k'
      · subst hk
        simpa [eraseKey, lookupD] using ih
      · simpa [eraseKey, lookupD, hk] using ih
    · by_cases hk : k = k'
      · subst hk
        simpa [eraseKey, lookupD, h0] using ih
      · by_cases h0' : k0 = k'
        · subst h0'
          simp [eraseKey, lookupD, h0, hk]
        · simpa [eraseKey, lookupD, h0, hk, h0'] using ih

/-! Key structure of the association operations. -/

theorem mem_keys_addToAssoc {l : Assoc} {k v a : String} :
    a ∈ keys (addToAssoc l k v) ↔ a ∈ keys l ∨ a = k := by
  induction l with
  | nil => simp [addToAssoc, keys]
  | cons p t ih =>
    obtain ⟨k0, v0⟩ := p
    by_cases h0 : k0 = k
    · subst h0
      have hred : addToAssoc ((k0, v0) :: t) k0 v = (k0, insertUniq v0 v) :: t := by
        simp [addToAssoc]
      rw [hred]
      simp only [keys, List.map_cons, List.mem_cons]
      tauto
    · simp only [addToAssoc, if_neg h0, keys, List.map_cons, List.mem_cons]
      simp only [keys] at ih
      rw [ih]
      tauto

theorem keys_removePrune_sublist (l : Assoc) (k v : String) :
    (keys (removePrune l k v)).Sublist (keys l) := by
  induction l with
  | nil => simp [removePrune, keys]
  | cons p t ih =>
    obtain ⟨k0, v0⟩ := p
    by_cases h0 : k0 = k
    · subst h0
      by_cases he : removeAll v0 v = []
      · simp [removePrune, he, keys]
      · simp [removePrune, he, keys]
    · simpa [removePrune, h0, keys] using ih.cons₂ k0

theorem keys_removeNoPrune (l : Assoc) (k v : String) :
    keys (removeNoPrune l k v) = keys l := by
  induction l with
  | nil => rfl
  | cons p t ih =>
    obtain ⟨k0, v0⟩ := p
    by_cases h0 : k0 = k
    · subst h0
      simp [removeNoPrune, keys]
    · simpa [removeNoPrune, h0, keys] using ih

theorem keys_eraseKey_sublist (l : Assoc) (k : String) :
    (keys (eraseKey l k)).Sublist (keys l) :=
  List.Sublist.map Prod.fst (List.filter_sublist l)

theorem nodup_keys_addToAssoc {l : Assoc} (hnd : (keys l).Nodup)
    (k v : String) : (keys (addToAssoc l k v)).Nodup := by
  induction l with
  | nil => simp [addToAssoc, keys]
  | cons p t ih =>
    obtain ⟨k0, v0⟩ := p
    simp only [keys, List.map_cons, List.nodup_cons] at hnd
    by_cases h0 : k0 = k
    · subst h0
      have hred : addToAssoc ((k0, v0) :: t) k0 v = (k0, insertUniq v0 v) :: t := by
        simp [addToAssoc]
      rw [hred]
      simp only [keys, List.map_cons, List.nodup_cons]
      exact hnd
    · simp only [addToAssoc, if_neg h0, keys, List.map_cons, List.nodup_cons]
      refine ⟨?_, ih hnd.2⟩
      intro hmem
      rcases mem_keys_addToAssoc.mp (by simpa [keys] using hmem) with h | h
      · exact hnd.1 (by simpa [keys] using h)
      · exact h0 h

theorem nodup_keys_removePrune {l : Assoc} (hnd : (keys l).Nodup)
    (k v : String) : (keys (removePrune l k v)).Nodup :=
  List.Nodup.sublist (keys_removePrune_sublist l k v) hnd

theorem nodup_keys_removeNoPrune {l : Assoc} (hnd : (keys l).Nodup)
    (k v : String) : (keys (removeNoPrune l k v)).Nodup := by
  rwa [keys_removeNoPrune]

theorem nodup_keys_eraseKey {l : Assoc} (hnd : (keys l).Nodup)
    (k : String) : (keys (eraseKey l k)).Nodup :=
  List.Nodup.sublist (keys_eraseKey_sublist l k) hnd


theorem NEvals_addToAssoc {l : Assoc} (h : NEvals l) (k v : String) :
    NEvals (addToAssoc l k v) := by
  induction l with
  | nil =>
    intro p hp
    simp [addToAssoc] at hp
    simp [hp]
  | cons q t ih =>
    obtain ⟨k0, v0⟩ := q
    intro p hp
    by_cases h0 : k0 = k
    · subst h0
      simp [addToAssoc] at hp
      rcases hp with rfl | hp
      · exact insertUniq_ne_nil
      · exact h p (List.mem_cons_of_mem _ hp)
    · simp [addToAssoc, h0] at hp
      rcases hp with rfl | hp
      · exact h (k0, v0) (List.mem_cons_self _ _)
      · exact ih (fun q hq => h q (List.mem_cons_of_mem _ hq)) p hp

theorem NEvals_removePrune {l : Assoc} (h : NEvals l) (k v : String) :
    NEvals (removePrune l k v) := by
  induction l with
  | nil => intro p hp; simp [removePrune] at hp
  | cons q t ih =>
    obtain ⟨k0, v0⟩ := q
    intro p hp
    have ht : NEvals t := fun q hq => h q (List.mem_cons_of_mem _ hq)
    by_cases h0 : k0 = k
    · subst h0
      by_cases he : removeAll v0 v = []
      · simp [removePrune, he] at hp
        exact ht p hp
      · simp [removePrune, he] at hp
        rcases hp with rfl | hp
        · exact he
        · exact ht p hp
    · simp [removePrune, h0] at hp
      rcases hp with rfl | hp
      · exact h (k0, v0) (List.mem_cons_self _ _)
      · exact ih ht p hp

/-! No-op and idempotence lemmas. -/

theorem addToAssoc_eq_self {l : Assoc} {k v : String}
    (h : v ∈ lookupD l k) : addToAssoc l k v = l := by
  induction l with
  | nil => simp [lookupD] at h
  | cons p t ih =>
    obtain ⟨k0, v0⟩ := p
    by_cases h0 : k0 = k
    · subst h0
      simp [lookupD] at h
      simp [addToAssoc, insertUniq_eq_self h]
    · simp [lookupD, h0] at h
      simp [addToAssoc, h0, ih h]

theorem removeNoPrune_eq_self {l : Assoc} {k v : String}
    (h : v ∉ lookupD l k) : removeNoPrune l k v = l := by
  induction l with
  | nil => rfl
  | cons p t ih =>
    obtain ⟨k0, v0⟩ := p
    by_cases h0 : k0 = k
    · subst h0
      simp [lookupD] at h
      simp [removeNoPrune, removeAll_eq_self h]
    · simp [lookupD, h0] at h
      simp [removeNoPrune, h0, ih h]

theorem removePrune_eq_self {l : Assoc} {k v : String}
    (hne : NEvals l) (h : v ∉ lookupD l k) : removePrune l k v = l := by
  induction l with
  | nil => rfl
  | cons p t ih =>
    obtain ⟨k0, v0⟩ := p
    have ht : NEvals t := fun q hq => hne q (List.mem_cons_of_mem _ hq)
    by_cases h0 : k0 = k
    · subst h0
      simp [lookupD] at h
      have hv0 : v0 ≠ [] := hne (k0, v0) (List.mem_cons_self _ _)
      simp [removePrune, removeAll_eq_self h, hv0]
    · simp [lookupD, h0] at h
      simp [removePrune, h0, ih ht h]

theorem eraseKey_eq_self {l : Assoc} {k : String}
    (h : hasKey l k = false) : eraseKey l k = l := by
  unfold eraseKey
  apply List.filter_eq_self.mpr
  intro p hp
  simp only [decide_eq_true_eq]
  intro heq
  simp only [hasKey, List.any_eq_false] at h
  exact absurd (by simpa using heq) (by simpa using h p hp)

theorem lookupD_eraseKey_self (l : Assoc) (k : String) :
    lookupD (eraseKey l k) k = [] := by
  simpa using lookupD_eraseKey l k k

theorem eraseKey_idem (l : Assoc) (k : String) :
    eraseKey (eraseKey l k) k = eraseKey l k := by
  unfold eraseKey
  rw [List.filter_filter]
  apply List.filter_congr
  intro p hp
  simp

theorem addToAssoc_idem (l : Assoc) (k v : String) :
    addToAssoc (addToAssoc l k v) k v = addToAssoc l k v := by
  apply addToAssoc_eq_self
  rw [lookupD_addToAssoc]
  simp [self_mem_insertUniq]

theorem removeNoPrune_idem (l : Assoc) (k v : String) :
    removeNoPrune (removeNoPrune l k v) k v = removeNoPrune l k v := by
  apply removeNoPrune_eq_self
  rw [lookupD_removeNoPrune]
  simp [self_not_mem_removeAll]

theorem removePrune_idem {l : Assoc} (hnd : (keys l).Nodup)
    (hne : NEvals l) (k v : String) :
    removePrune (removePrune l k v) k v = removePrune l k v := by
  apply removePrune_eq_self (NEvals_removePrune hne k v)
  rw [lookupD_removePrune hnd]
  simp [self_not_mem_removeAll]

/-! Lemmas about the registry fold performed by `dropConnection`. -/

theorem keys_foldl_removePrune_sublist (rooms : List Room) (reg : Assoc)
    (c : Conn) :
    (keys (rooms.foldl (fun reg r => removePrune reg r c) reg)).Sublist
      (keys reg) := by
  induction rooms generalizing reg with
  | nil => exact List.Sublist.refl _
  | cons r rs ih =>
    exact List.Sublist.trans (ih (removePrune reg r c))
      (keys_removePrune_sublist reg r c)

theorem NEvals_foldl_removePrune (rooms : List Room) {reg : Assoc}
    (hne : NEvals reg) (c : Conn) :
    NEvals (rooms.foldl (fun reg r => removePrune reg r c) reg) := by
  induction rooms generalizing reg with
  | nil => exact hne
  | cons r rs ih => exact ih (NEvals_removePrune hne r c)

theorem lookupD_foldl_removePrune (rooms : List Room) {reg : Assoc}
    (hnd : (keys reg).Nodup) (c : Conn) (r' : Room) :
    lookupD (rooms.foldl (fun reg r => removePrune reg r c) reg) r' =
      if r' ∈ rooms then removeAll (lookupD reg r') c
      else lookupD reg r' := by
  induction rooms generalizing reg with
  | nil => simp
  | cons r rs ih =>
    have hnd' : (keys (removePrune reg r c)).Nodup :=
      nodup_keys_removePrune hnd r c
    simp only [List.foldl_cons]
    rw [ih hnd', lookupD_removePrune hnd]
    by_cases hr : r' ∈ rs
    · by_cases hrr : r = r'
      · subst hrr
        simp [hr, removeAll_idem]
      · simp [hr, hrr]
    · by_cases hrr : r = r'
      · subst hrr
        simp [hr]
      · have hrr' : ¬r' = r := fun he => hrr he.symm
        simp [hr, hrr, hrr']

/-! Specialized corollaries of the lookup lemmas. -/

theorem lookupD_addToAssoc_self (l : Assoc) (k v : String) :
    lookupD (addToAssoc l k v) k = insertUniq (lookupD l k) v := by
  rw [lookupD_addToAssoc]
  simp

theorem lookupD_addToAssoc_ne (l : Assoc) {k k' : String}
    (h : k ≠ k') (v : String) :
    lookupD (addToAssoc l k v) k' = lookupD l k' := by
  rw [lookupD_addToAssoc]
  simp [h]

theorem lookupD_removeNoPrune_self (l : Assoc) (k v : String) :
    lookupD (removeNoPrune l k v) k = removeAll (lookupD l k) v := by
  rw [lookupD_removeNoPrune]
  simp

theorem lookupD_removeNoPrune_ne (l : Assoc) {k k' : String}
    (h : k ≠ k') (v : String) :
    lookupD (removeNoPrune l k v) k' = lookupD l k' := by
  rw [lookupD_removeNoPrune]
  simp [h]

theorem lookupD_removePrune_self {l : Assoc} (hnd : (keys l).Nodup)
    (k v : String) :
    lookupD (removePrune l k v) k = removeAll (lookupD l k) v := by
  rw [lookupD_removePrune hnd]
  simp

theorem lookupD_removePrune_ne {l : Assoc} (hnd : (keys l).Nodup)
    {k k' : String} (h : k ≠ k') (v : String) :
    lookupD (removePrune l k v) k' = lookupD l k' := by
  rw [lookupD_removePrune hnd]
  simp [h]

theorem lookupD_eraseKey_ne (l : Assoc) {k k' : String} (h : k ≠ k') :
    lookupD (eraseKey l k) k' = lookupD l k' := by
  rw [lookupD_eraseKey]
  simp [h]

theorem lookupD_foldl_removePrune_mem (rooms : List Room) {reg : Assoc}
    (hnd : (keys reg).Nodup) (c : Conn) {r' : Room} (h : r' ∈ rooms) :
    lookupD (rooms.foldl (fun reg r => removePrune reg r c) reg) r' =
      removeAll (lookupD reg r') c := by
  rw [lookupD_foldl_removePrune rooms hnd]
  simp [h]

theorem lookupD_foldl_removePrune_not_mem (rooms : List Room) {reg : Assoc}
    (hnd : (keys reg).Nodup) (c : Conn) {r' : Room} (h : r' ∉ rooms) :
    lookupD (rooms.foldl (fun reg r => removePrune reg r c) reg) r' =
      lookupD reg r' := by
  rw [lookupD_foldl_removePrune rooms hnd]
  simp [h]

/-! Well-formedness and the inverse invariant of the membership state. -/


theorem WF_empty : WF MState.empty := by
  refine ⟨?_, ?_, ?_⟩ <;> simp [MState.empty, keys, NEvals]

theorem Inv_empty : Inv MState.empty := by
  intro c r
  simp [MState.empty, lookupD]

theorem WF_join {s : MState} (h : WF s) (c : Conn) (r : Room) :
    WF (join s c r) :=
  ⟨nodup_keys_addToAssoc h.1 r c, nodup_keys_addToAssoc h.2.1 c r,
   NEvals_addToAssoc h.2.2 r c⟩

theorem WF_leave {s : MState} (h : WF s) (c : Conn) (r : Room) :
    WF (leave s c r) :=
  ⟨nodup_keys_removePrune h.1 r c, nodup_keys_removeNoPrune h.2.1 c r,
   NEvals_removePrune h.2.2 r c⟩

theorem WF_drop {s : MState} (h : WF s) (c : Conn) :
    WF (dropConnection s c) :=
  ⟨List.Nodup.sublist
      (keys_foldl_removePrune_sublist (lookupD s.session c) s.registry c) h.1,
   nodup_keys_eraseKey h.2.1 c,
   NEvals_foldl_removePrune (lookupD s.session c) h.2.2 c⟩

theorem Inv_join {s : MState} (h : Inv s) (c : Conn) (r : Room) :
    Inv (join s c r) := by
  intro c' r'
  show c' ∈ lookupD (addToAssoc s.registry r c) r' ↔
    r' ∈ lookupD (addToAssoc s.session c r) c'
  by_cases hr : r = r'
  · subst hr
    by_cases hc : c = c'
    · subst hc
      rw [lookupD_addToAssoc_self, lookupD_addToAssoc_self]
      simp [mem_insertUniq]
    · rw [lookupD_addToAssoc_self, lookupD_addToAssoc_ne _ hc, mem_insertUniq]
      constructor
      · rintro (rfl | hmem)
        · exact absurd rfl hc
        · exact (h c' r).mp hmem
      · exact fun hmem => Or.inr ((h c' r).mpr hmem)
  · by_cases hc : c = c'
    · subst hc
      rw [lookupD_addToAssoc_ne _ hr, lookupD_addToAssoc_self, mem_insertUniq]
      constructor
      · exact fun hmem => Or.inr ((h c r').mp hmem)
      · rintro (rfl | hmem)
        · exact absurd rfl hr
        · exact (h c r').mpr hmem
    · rw [lookupD_addToAssoc_ne _ hr, lookupD_addToAssoc_ne _ hc]
      exact h c' r'

theorem Inv_leave {s : MState} (hwf : WF s) (h : Inv s) (c : Conn) (r : Room) :
    Inv (leave s c r) := by
  intro c' r'
  show c' ∈ lookupD (removePrune s.registry r c) r' ↔
    r' ∈ lookupD (removeNoPrune s.session c r) c'
  by_cases hr : r = r'
  · subst hr
    by_cases hc : c = c'
    · subst hc
      rw [lookupD_removePrune_self hwf.1, lookupD_removeNoPrune_self]
      simp [self_not_mem_removeAll]
    · rw [lookupD_removePrune_self hwf.1, lookupD_removeNoPrune_ne _ hc,
        mem_removeAll]
      constructor
      · exact fun hmem => (h c' r).mp hmem.1
      · intro hmem
        exact ⟨(h c' r).mpr hmem, fun he => hc he.symm⟩
  · by_cases hc : c = c'
    · subst hc
      rw [lookupD_removePrune_ne hwf.1 hr, lookupD_removeNoPrune_self,
        mem_removeAll]
      constructor
      · intro hmem
        exact ⟨(h c r').mp hmem, fun he => hr he.symm⟩
      · exact fun hmem => (h c r').mpr hmem.1
    · rw [lookupD_removePrune_ne hwf.1 hr, lookupD_removeNoPrune_ne _ hc]
      exact h c' r'

theorem Inv_drop {s : MState} (hwf : WF s) (h : Inv s) (c : Conn) :
    Inv (dropConnection s c) := by
  intro c' r'
  show c' ∈ lookupD ((lookupD s.session c).foldl
      (fun reg r => removePrune reg r c) s.registry) r' ↔
    r' ∈ lookupD (eraseKey s.session c) c'
  by_cases hc : c = c'
  · subst hc
    rw [lookupD_eraseKey, if_pos rfl]
    by_cases hr : r' ∈ lookupD s.session c
    · rw [lookupD_foldl_removePrune_mem _ hwf.1 c hr]
      simp [self_not_mem_removeAll]
    · rw [lookupD_foldl_removePrune_not_mem _ hwf.1 c hr]
      simp only [List.not_mem_nil, iff_false]
      exact fun hmem => hr ((h c r').mp hmem)
  · rw [lookupD_eraseKey_ne _ hc]
    by_cases hr : r' ∈ lookupD s.session c
    · rw [lookupD_foldl_removePrune_mem _ hwf.1 c hr, mem_removeAll]
      constructor
      · exact fun hmem => (h c' r').mp hmem.1
      · intro hmem
        exact ⟨(h c' r').mpr hmem, fun he => hc he.symm⟩
    · rw [lookupD_foldl_removePrune_not_mem _ hwf.1 c hr]
      exact h c' r'

theorem WF_Inv_applyOp {s : MState} (h : WF s ∧ Inv s) (op : Op) :
    WF (applyOp s op) ∧ Inv (applyOp s op) := by
  cases op with
  | join c r => exact ⟨WF_join h.1 c r, Inv_join h.2 c r⟩
  | leave c r => exact ⟨WF_leave h.1 c r, Inv_leave h.1 h.2 c r⟩
  | drop c => exact ⟨WF_drop h.1 c, Inv_drop h.1 h.2 c⟩

theorem WF_Inv_foldl {s : MState} (h : WF s ∧ Inv s) (ops : List Op) :
    WF (ops.foldl applyOp s) ∧ Inv (ops.foldl applyOp s) := by
  induction ops generalizing s with
  | nil => exact h
  | cons op rest ih => exact ih (WF_Inv_applyOp h op)

theorem WF_Inv_run (ops : List Op) : WF (run ops) ∧ Inv (run ops) :=
  WF_Inv_foldl ⟨WF_empty, Inv_empty⟩ ops

/-! State-level idempotence and cleanup lemmas. -/

theorem hasKey_false_not_mem_keys {l : Assoc} {k : String}
    (h : hasKey l k = false) : k ∉ keys l := by
  intro hmem
  simp only [hasKey, List.any_eq_false] at h
  simp only [keys, List.mem_map] at hmem
  obtain ⟨p, hp, hpk⟩ := hmem
  exact absurd (by simpa using hpk) (by simpa using h p hp)

theorem join_join (s : MState) (c : Conn) (r : Room) :
    join (join s c r) c r = join s c r := by
  simp [join, addToAssoc_idem]

theorem leave_leave {s : MState} (hwf : WF s) (c : Conn) (r : Room) :
    leave (leave s c r) c r = leave s c r := by
  simp [leave, removePrune_idem hwf.1 hwf.2.2, removeNoPrune_idem]

theorem drop_drop (s : MState) (c : Conn) :
    dropConnection (dropConnection s c) c = dropConnection s c := by
  simp only [dropConnection, lookupD_eraseKey_self, List.foldl_nil,
    eraseKey_idem]

theorem join_mem_eq_self {s : MState} (hinv : Inv s) {c : Conn} {r : Room}
    (h : c ∈ members s r) : join s c r = s := by
  show MState.mk _ _ = MState.mk s.registry s.session
  rw [MState.mk.injEq]
  exact ⟨addToAssoc_eq_self h, addToAssoc_eq_self ((hinv c r).mp h)⟩

theorem leave_not_mem_eq_self {s : MState} (hwf : WF s) (hinv : Inv s)
    {c : Conn} {r : Room} (h : c ∉ members s r) : leave s c r = s := by
  show MState.mk _ _ = MState.mk s.registry s.session
  rw [MState.mk.injEq]
  refine ⟨removePrune_eq_self hwf.2.2 h, removeNoPrune_eq_self ?_⟩
  exact fun hr => h ((hinv c r).mpr hr)

theorem drop_never_joined_eq_self {s : MState} {c : Conn}
    (h : hasKey s.session c = false) : dropConnection s c = s := by
  show MState.mk _ _ = MState.mk s.registry s.session
  rw [MState.mk.injEq]
  constructor
  · rw [lookupD_eq_nil_of_not_mem_keys (hasKey_false_not_mem_keys h)]
    rfl
  · exact eraseKey_eq_self h

theorem roomsOf_drop_self (s : MState) (c : Conn) :
    roomsOf (dropConnection s c) c = [] :=
  lookupD_eraseKey_self s.session c

theorem not_mem_members_drop {s : MState} (hwf : WF s) (hinv : Inv s)
    (c : Conn) (r : Room) : c ∉ members (dropConnection s c) r := by
  show c ∉ lookupD ((lookupD s.session c).foldl
    (fun reg r => removePrune reg r c) s.registry) r
  by_cases hr : r ∈ lookupD s.session c
  · rw [lookupD_foldl_removePrune_mem _ hwf.1 c hr]
    exact self_not_mem_removeAll
  · rw [lookupD_foldl_removePrune_not_mem _ hwf.1 c hr]
    exact fun hmem => hr ((hinv c r).mp hmem)


/-! Lemmas about effect traces. -/

theorem mem_of_getElem_opt {α : Type} {l : List α} {i : Nat} {a : α}
    (h : l[i]? = some a) : a ∈ l := by
  obtain ⟨hlt, rfl⟩ := List.getElem?_eq_some.mp h
  exact List.getElem_mem hlt

theorem emitsAfterCommit_of_no_deliver {tr : List Effect}
    (h : ∀ e ∈ tr, isDeliver e = false) : emitsAfterCommit tr := by
  intro i c m hi
  have := h _ (mem_of_getElem_opt hi)
  simp [isDeliver] at this

theorem emitsAfterCommit_append {pre : List Effect} {m0 : MessageRow}
    {conns : List Conn} (hpre : ∀ e ∈ pre, isDeliver e = false) :
    emitsAfterCommit (pre ++ Effect.dbCommit m0 ::
      conns.map (fun c => Effect.deliver c m0)) := by
  intro i c m hi
  rcases Nat.lt_or_ge i pre.length with hlt | hge
  · rw [List.getElem?_append, if_pos hlt] at hi
    have := hpre _ (mem_of_getElem_opt hi)
    simp [isDeliver] at this
  · rw [List.getElem?_append_right hge] at hi
    rcases Nat.eq_or_lt_of_le hge with heq | hlt2
    · rw [← heq, Nat.sub_self, List.getElem?_cons_zero] at hi
      exact absurd (Option.some.inj hi) (by simp)
    · obtain ⟨d, hd⟩ : ∃ d, i - pre.length = d + 1 :=
        ⟨i - pre.length - 1, by omega⟩
      rw [hd, List.getElem?_cons_succ, List.getElem?_map] at hi
      cases hcd : conns[d]? with
      | none => rw [hcd] at hi; exact Option.noConfusion hi
      | some c' =>
        rw [hcd] at hi
        have hi' : Effect.deliver c' m0 = Effect.deliver c m :=
          Option.some.inj hi
        have hm : m0 = m := (Effect.deliver.inj hi').2
        refine ⟨pre.length, hlt2, ?_⟩
        rw [List.getElem?_append_right (Nat.le_refl _), Nat.sub_self,
          List.getElem?_cons_zero, hm]

/-! Characterization of the create-message endpoint's outcomes. -/

theorem finishCreate_ok {ms : MState} {db : DB} {md : MessageCreateRequest}
    {newId : String} {emitOk : Bool} {pre : List Effect} {row : MessageRow}
    (h : (finishCreate ms db md newId emitOk pre).result = .ok row) :
    row = newRow md newId ∧
    (finishCreate ms db md newId emitOk pre).db =
      { db with messages := db.messages ++ [row] } ∧
    (finishCreate ms db md newId emitOk pre).trace =
      (if emitOk then
        pre ++ Effect.dbCommit row ::
          (members ms md.chatroom_id).map (fun c => Effect.deliver c row)
      else pre ++ [Effect.dbCommit row, Effect.logError "emit"]) := by
  unfold finishCreate at h ⊢
  by_cases hinit :
      messageInitOk md.message_text md.is_reply md.parent_message_id = true
  · rw [if_pos hinit] at h ⊢
    cases emitOk with
    | true =>
      have hrow : newRow md newId = row := Except.ok.inj h
      rw [← hrow]
      exact ⟨rfl, rfl, rfl⟩
    | false =>
      have hrow : newRow md newId = row := Except.ok.inj h
      rw [← hrow]
      exact ⟨rfl, rfl, rfl⟩
  · rw [if_neg hinit] at h
    exact absurd h (by simp)

theorem finishCreate_err {ms : MState} {db : DB} {md : MessageCreateRequest}
    {newId : String} {emitOk : Bool} {pre : List Effect} {err : CreateError}
    (h : (finishCreate ms db md newId emitOk pre).result = .error err) :
    (finishCreate ms db md newId emitOk pre).db = db ∧
    (finishCreate ms db md newId emitOk pre).trace = pre := by
  unfold finishCreate at h ⊢
  by_cases hinit :
      messageInitOk md.message_text md.is_reply md.parent_message_id = true
  · rw [if_pos hinit] at h
    cases emitOk <;> exact Except.noConfusion h
  · rw [if_neg hinit]
    exact ⟨rfl, rfl⟩

theorem create_message_ok {ms : MState} {db : DB} {md : MessageCreateRequest}
    {newId : String} {emitOk : Bool} {row : MessageRow}
    (h : (create_message ms db md newId emitOk).result = .ok row) :
    ∃ pre : List Effect,
      (∀ e ∈ pre, isDeliver e = false ∧ isCommit e = false) ∧
      row = newRow md newId ∧
      (create_message ms db md newId emitOk).db =
        { db with messages := db.messages ++ [row] } ∧
      (create_message ms db md newId emitOk).trace =
        (if emitOk then
          pre ++ Effect.dbCommit row ::
            (members ms md.chatroom_id).map (fun c => Effect.deliver c row)
        else pre ++ [Effect.dbCommit row, Effect.logError "emit"]) ∧
      ((md.is_reply && !strFalsy md.parent_message_id) = true →
        (findMessage db (md.parent_message_id.getD "")).isSome = true) := by
  unfold create_message at h ⊢
  by_cases hu : md.user_id ∈ db.users
  · rw [if_pos hu] at h ⊢
    by_cases hc : md.chatroom_id ∈ db.chatrooms
    · rw [if_pos hc] at h ⊢
      by_cases hrep : (md.is_reply && !strFalsy md.parent_message_id) = true
      · rw [if_pos hrep] at h ⊢
        cases hfind : findMessage db (md.parent_message_id.getD "") with
        | none =>
          rw [hfind] at h
          exact Except.noConfusion h
        | some q =>
          rw [hfind] at h
          obtain ⟨hrow, hdb, htr⟩ := finishCreate_ok h
          exact ⟨[Effect.dbQueryUser md.user_id,
                  Effect.dbQueryChatroom md.chatroom_id,
                  Effect.dbQueryMessage (md.parent_message_id.getD "")],
            by simp [isDeliver, isCommit], hrow, hdb, htr,
            fun _ => rfl⟩
      · rw [if_neg hrep] at h ⊢
        obtain ⟨hrow, hdb, htr⟩ := finishCreate_ok h
        exact ⟨[Effect.dbQueryUser md.user_id,
                Effect.dbQueryChatroom md.chatroom_id],
          by simp [isDeliver, isCommit], hrow, hdb, htr,
          fun hr => absurd hr hrep⟩
    · rw [if_neg hc] at h
      exact absurd h (by simp)
  · rw [if_neg hu] at h
    exact absurd h (by simp)

theorem create_message_err {ms : MState} {db : DB} {md : MessageCreateRequest}
    {newId : String} {emitOk : Bool} {err : CreateError}
    (h : (create_message ms db md newId emitOk).result = .error err) :
    (create_message ms db md newId emitOk).db = db ∧
    ∀ e ∈ (create_message ms db md newId emitOk).trace,
      isDeliver e = false ∧ isCommit e = false := by
  unfold create_message at h ⊢
  by_cases hu : md.user_id ∈ db.users
  · rw [if_pos hu] at h ⊢
    by_cases hc : md.chatroom_id ∈ db.chatrooms
    · rw [if_pos hc] at h ⊢
      by_cases hrep : (md.is_reply && !strFalsy md.parent_message_id) = true
      · rw [if_pos hrep] at h ⊢
        cases hfind : findMessage db (md.parent_message_id.getD "") with
        | none => exact ⟨rfl, by simp [isDeliver, isCommit]⟩
        | some q =>
          rw [hfind] at h
          obtain ⟨hdb, htr⟩ := finishCreate_err h
          rw [hdb, htr]
          exact ⟨rfl, by simp [isDeliver, isCommit]⟩
      · rw [if_neg hrep] at h ⊢
        obtain ⟨hdb, htr⟩ := finishCreate_err h
        rw [hdb, htr]
        exact ⟨rfl, by simp [isDeliver, isCommit]⟩
    · rw [if_neg hc]
      exact ⟨rfl, by simp [isDeliver, isCommit]⟩
  · rw [if_neg hu]
    exact ⟨rfl, by simp [isDeliver, isCommit]⟩

theorem finishCreate_emit_agnostic (ms : MState) (db : DB)
    (md : MessageCreateRequest) (newId : String) (pre : List Effect) :
    (finishCreate ms db md newId false pre).result =
      (finishCreate ms db md newId true pre).result ∧
    (finishCreate ms db md newId false pre).db =
      (finishCreate ms db md newId true pre).db := by
  unfold finishCreate
  by_cases hinit :
      messageInitOk md.message_text md.is_reply md.parent_message_id = true
  · simp only [if_pos hinit]
    exact ⟨trivial, trivial⟩
  · simp only [if_neg hinit]
    exact ⟨trivial, trivial⟩

theorem create_message_emit_agnostic (ms : MState) (db : DB)
    (md : MessageCreateRequest) (newId : String) :
    (create_message ms db md newId false).result =
      (create_message ms db md newId true).result ∧
    (create_message ms db md newId false).db =
      (create_message ms db md newId true).db := by
  unfold create_message
  by_cases hu : md.user_id ∈ db.users
  · rw [if_pos hu, if_pos hu]
    by_cases hc : md.chatroom_id ∈ db.chatrooms
    · rw [if_pos hc, if_pos hc]
      by_cases hrep : (md.is_reply && !strFalsy md.parent_message_id) = true
      · rw [if_pos hrep, if_pos hrep]
        cases hfind : findMessage db (md.parent_message_id.getD "") with
        | none => exact ⟨by rfl, by rfl⟩
        | some q => exact finishCreate_emit_agnostic ms db md newId _
      · rw [if_neg hrep, if_neg hrep]
        exact finishCreate_emit_agnostic ms db md newId _
    · rw [if_neg hc, if_neg hc]
      exact ⟨rfl, rfl⟩
  · rw [if_neg hu, if_neg hu]
    exact ⟨rfl, rfl⟩

/-! Characterization of the Pydantic request validation. -/

theorem validate_parent_ok {b : Bool} {v p : Option String}
    (h : validate_parent_message_id b v = .ok p) :
    p = v ∧ (b && strFalsy v) = false ∧ (!b && !strFalsy v) = false := by
  unfold validate_parent_message_id at h
  by_cases hA : (b && strFalsy v) = true
  · rw [if_pos hA] at h
    exact Except.noConfusion h
  · rw [if_neg hA] at h
    by_cases hB : (!b && !strFalsy v) = true
    · rw [if_pos hB] at h
      exact Except.noConfusion h
    · rw [if_neg hB] at h
      exact ⟨(Except.ok.inj h).symm, by simpa using hA, by simpa using hB⟩

theorem validateRequest_ok {md md' : MessageCreateRequest}
    (h : validateRequest md = .ok md') :
    md'.user_id = md.user_id ∧ md'.chatroom_id = md.chatroom_id ∧
    md'.is_reply = md.is_reply ∧
    md'.parent_message_id = md.parent_message_id ∧
    (md.is_reply && strFalsy md.parent_message_id) = false ∧
    (!md.is_reply && !strFalsy md.parent_message_id) = false := by
  unfold validateRequest at h
  cases hv : validate_message_text md.message_text with
  | error e =>
    rw [hv] at h
    exact Except.noConfusion h
  | ok t =>
    rw [hv] at h
    cases hp : validate_parent_message_id md.is_reply md.parent_message_id with
    | error e =>
      rw [hp] at h
      exact Except.noConfusion h
    | ok p =>
      rw [hp] at h
      obtain ⟨hpv, hA, hB⟩ := validate_parent_ok hp
      have hmd : ({ md with message_text := t, parent_message_id := p } :
          MessageCreateRequest) = md' := Except.ok.inj h
      rw [← hmd]
      exact ⟨rfl, rfl, rfl, hpv, hA, hB⟩

theorem deliver_mem_broadcast_iff {pre : List Effect} {m0 m : MessageRow}
    {conns : List Conn} {c : Conn}
    (hpre : ∀ e ∈ pre, isDeliver e = false) :
    Effect.deliver c m ∈ pre ++ Effect.dbCommit m0 ::
        conns.map (fun c' => Effect.deliver c' m0) ↔
      c ∈ conns ∧ m = m0 := by
  simp only [List.mem_append, List.mem_cons, List.mem_map]
  constructor
  · rintro (hmem | heq | ⟨c', hc', heq⟩)
    · exact absurd (hpre _ hmem) (by simp [isDeliver])
    · exact Effect.noConfusion heq
    · obtain ⟨hceq, hmeq⟩ := Effect.deliver.inj heq
      exact ⟨hceq ▸ hc', hmeq.symm⟩
  · rintro ⟨hc, rfl⟩
    exact Or.inr (Or.inr ⟨c, hc, rfl⟩)

/-! Claim theorems. -/

/-- C3: for every join or leave request payload in which the user_id or
chatroom_id field is absent or blank, the handler sends an error event
(indicating both fields are required) to the issuing connection only and
performs no membership change; join and leave never access the
persistence store. -/
theorem join_leave_invalid_request (s : MState) (sid : Conn)
    (d : EventPayload)
    (h : strFalsy d.user_id = true ∨ strFalsy d.chatroom_id = true) :
    joinHandler s sid d =
      ⟨s, [OutEvent.error sid requiredMsg], []⟩ ∧
    leaveHandler s sid d =
      ⟨s, [OutEvent.error sid requiredMsg], []⟩ ∧
    (∀ d' : EventPayload, (joinHandler s sid d').dbEffects = [] ∧
      (leaveHandler s sid d').dbEffects = []) := by
  have hcond : (strFalsy d.user_id || strFalsy d.chatroom_id) = true := by
    rcases h with h | h <;> simp [h]
  refine ⟨by simp [joinHandler, hcond], by simp [leaveHandler, hcond], ?_⟩
  intro d'
  constructor
  · unfold joinHandler
    split <;> rfl
  · unfold leaveHandler
    split <;> rfl

/-- C3 witness: the spec's validation scenario — a join with blank
user_id emits exactly the required-fields error to the issuing
connection and changes nothing. -/
theorem join_leave_invalid_request_witness :
    joinHandler MState.empty "conn-1" ⟨some "", some "room-xyz"⟩ =
      ⟨MState.empty, [OutEvent.error "conn-1" requiredMsg], []⟩ ∧
    leaveHandler MState.empty "conn-1" ⟨some "", some "room-xyz"⟩ =
      ⟨MState.empty, [OutEvent.error "conn-1" requiredMsg], []⟩ := by
  have h := join_leave_invalid_request MState.empty "conn-1"
    ⟨some "", some "room-xyz"⟩ (Or.inl (by decide))
  exact ⟨h.1, h.2.1⟩

/-- C5: every successful join sends exactly one `joined` acknowledgment
carrying the requested chatroom_id to the issuing connection and to no
other connection; symmetrically for leave with `left`. -/
theorem join_leave_ack (s : MState) (sid : Conn) (d : EventPayload)
    (cid : String)
    (hu : strFalsy d.user_id = false)
    (hc : d.chatroom_id = some cid) (hcne : cid.isEmpty = false) :
    (joinHandler s sid d).events = [OutEvent.joined sid cid] ∧
    (joinHandler s sid d).state = join s sid cid ∧
    (leaveHandler s sid d).events = [OutEvent.left sid cid] ∧
    (leaveHandler s sid d).state = leave s sid cid := by
  have hcf : strFalsy d.chatroom_id = false := by
    rw [hc]
    simpa [strFalsy] using hcne
  have hcf' : strFalsy (some cid) = false := by
    simpa [strFalsy] using hcne
  constructor
  · simp [joinHandler, hc, hu, hcf']
  constructor
  · simp [joinHandler, hc, hu, hcf']
  constructor
  · simp [leaveHandler, hc, hu, hcf']
  · simp [leaveHandler, hc, hu, hcf']

/-- C5 witness: a concrete successful join and leave, acknowledged by a
single event to the issuing connection. -/
theorem join_leave_ack_witness :
    (joinHandler MState.empty "conn-1" ⟨some "u1", some "R1"⟩).events =
      [OutEvent.joined "conn-1" "R1"] ∧
    (leaveHandler MState.empty "conn-1" ⟨some "u1", some "R1"⟩).events =
      [OutEvent.left "conn-1" "R1"] := by
  have h := join_leave_ack MState.empty "conn-1" ⟨some "u1", some "R1"⟩
    "R1" (by decide) rfl (by decide)
  exact ⟨h.1, h.2.2.1⟩

/-- C6: after every finite sequence of Join, Leave and DropConnection
operations from the empty state, the Room Registry and the Connection
Session indexes are exact inverses: a connection is in `Registry[r]` iff
`r` is in its session room set. -/
theorem registry_session_inverse (ops : List Op) (c : Conn) (r : Room) :
    c ∈ members (run ops) r ↔ r ∈ roomsOf (run ops) c :=
  (WF_Inv_run ops).2 c r

/-- C7: Join, Leave and DropConnection are idempotent on every reachable
membership state; Join when already a member and Leave when not a member
are successful no-ops. -/
theorem membership_ops_idempotent (ops : List Op) (c : Conn) (r : Room) :
    join (join (run ops) c r) c r = join (run ops) c r ∧
    leave (leave (run ops) c r) c r = leave (run ops) c r ∧
    dropConnection (dropConnection (run ops) c) c =
      dropConnection (run ops) c ∧
    (c ∈ members (run ops) r → join (run ops) c r = run ops) ∧
    (c ∉ members (run ops) r → leave (run ops) c r = run ops) := by
  obtain ⟨hwf, hinv⟩ := WF_Inv_run ops
  exact ⟨join_join _ c r, leave_leave hwf c r, drop_drop _ c,
    fun h => join_mem_eq_self hinv h,
    fun h => leave_not_mem_eq_self hwf hinv h⟩

/-- C7 witness: concrete idempotence — joining twice equals joining
once, a repeated join is a no-op, and leaving a room one is not in is a
no-op. -/
theorem membership_ops_idempotent_witness :
    join (join (run [Op.join "A" "R1"]) "A" "R1") "A" "R1" =
      join (run [Op.join "A" "R1"]) "A" "R1" ∧
    join (run [Op.join "A" "R1"]) "A" "R1" = run [Op.join "A" "R1"] ∧
    leave (run [Op.join "A" "R1"]) "B" "R1" = run [Op.join "A" "R1"] := by
  refine ⟨(membership_ops_idempotent [Op.join "A" "R1"] "A" "R1").1,
    (membership_ops_idempotent [Op.join "A" "R1"] "A" "R1").2.2.2.1
      (by decide),
    (membership_ops_idempotent [Op.join "A" "R1"] "B" "R1").2.2.2.2
      (by decide)⟩

/-- C8: handling disconnect for a connection removes it from the
registry entry of every room it had joined and clears its session room
set, so no subsequent Members query contains it; it is a no-op when the
connection never joined any room, and a second disconnect is a no-op. -/
theorem disconnect_cleanup (ops : List Op) (c : Conn) :
    roomsOf (disconnectHandler (run ops) c) c = [] ∧
    (∀ r, c ∉ members (disconnectHandler (run ops) c) r) ∧
    (hasKey (run ops).session c = false →
      disconnectHandler (run ops) c = run ops) ∧
    disconnectHandler (disconnectHandler (run ops) c) c =
      disconnectHandler (run ops) c := by
  obtain ⟨hwf, hinv⟩ := WF_Inv_run ops
  exact ⟨roomsOf_drop_self _ c,
    fun r => not_mem_members_drop hwf hinv c r,
    fun h => drop_never_joined_eq_self h,
    drop_drop _ c⟩

/-- C8 witness: a connection joined to two rooms is fully cleaned up by
disconnect, and disconnecting a never-joined connection is a no-op. -/
theorem disconnect_cleanup_witness :
    roomsOf (disconnectHandler
      (run [Op.join "A" "R1", Op.join "A" "R2"]) "A") "A" = [] ∧
    "A" ∉ members (disconnectHandler
      (run [Op.join "A" "R1", Op.join "A" "R2"]) "A") "R1" ∧
    disconnectHandler (run [Op.join "A" "R1", Op.join "A" "R2"]) "B" =
      run [Op.join "A" "R1", Op.join "A" "R2"] := by
  refine ⟨(disconnect_cleanup [Op.join "A" "R1", Op.join "A" "R2"] "A").1,
    (disconnect_cleanup [Op.join "A" "R1", Op.join "A" "R2"] "A").2.1 "R1",
    (disconnect_cleanup [Op.join "A" "R1", Op.join "A" "R2"] "B").2.2.1
      (by decide)⟩

/-- C1: for a message accepted by the create-message endpoint, the
new_message broadcast is delivered to exactly the membership snapshot of
the target room at the instant of delivery: a connection receives it iff
it is in `Members(chatroom_id)`, and a connection whose session does not
contain the room (joined only elsewhere, or nowhere) receives nothing. -/
theorem delivery_targeting (ops : List Op) (db : DB)
    (md : MessageCreateRequest) (newId : String) (c : Conn)
    (m : MessageRow)
    (h : (create_message (run ops) db md newId true).result = .ok m) :
    (Effect.deliver c m ∈ (create_message (run ops) db md newId true).trace
      ↔ c ∈ members (run ops) md.chatroom_id) ∧
    (md.chatroom_id ∉ roomsOf (run ops) c →
      Effect.deliver c m ∉
        (create_message (run ops) db md newId true).trace) := by
  obtain ⟨pre, hpre, hrow, hdb, htr, hpar⟩ := create_message_ok h
  rw [if_pos rfl] at htr
  have hiff : Effect.deliver c m ∈
      (create_message (run ops) db md newId true).trace ↔
      c ∈ members (run ops) md.chatroom_id := by
    rw [htr, deliver_mem_broadcast_iff (fun e he => (hpre e he).1)]
    simp
  refine ⟨hiff, ?_⟩
  intro hno hmem
  exact hno (((WF_Inv_run ops).2 c md.chatroom_id).mp (hiff.mp hmem))

/-- C1 witness: with connections A, B joined to R1 and C joined to R2,
posting a message to R1 delivers it to A and not to C. -/
theorem delivery_targeting_witness :
    Effect.deliver "A" ⟨"m1", "hello", "u1", "R1", false, none⟩ ∈
      (create_message (run [Op.join "A" "R1", Op.join "B" "R1",
          Op.join "C" "R2"]) ⟨["u1"], ["R1"], []⟩
        ⟨"hello", "u1", "R1", false, none⟩ "m1" true).trace ∧
    Effect.deliver "C" ⟨"m1", "hello", "u1", "R1", false, none⟩ ∉
      (create_message (run [Op.join "A" "R1", Op.join "B" "R1",
          Op.join "C" "R2"]) ⟨["u1"], ["R1"], []⟩
        ⟨"hello", "u1", "R1", false, none⟩ "m1" true).trace := by
  constructor
  · exact (delivery_targeting [Op.join "A" "R1", Op.join "B" "R1",
      Op.join "C" "R2"] ⟨["u1"], ["R1"], []⟩
      ⟨"hello", "u1", "R1", false, none⟩ "m1" "A"
      ⟨"m1", "hello", "u1", "R1", false, none⟩ (by decide)).1.mpr (by decide)
  · exact (delivery_targeting [Op.join "A" "R1", Op.join "B" "R1",
      Op.join "C" "R2"] ⟨["u1"], ["R1"], []⟩
      ⟨"hello", "u1", "R1", false, none⟩ "m1" "C"
      ⟨"m1", "hello", "u1", "R1", false, none⟩ (by decide)).2 (by decide)

/-- C2: in every execution of the create-message pipeline, any
per-connection delivery of a message in the effect trace is preceded by
the durable commit of that same message; no reachable trace delivers a
message before its database commit. -/
theorem new_message_after_commit (ms : MState) (db : DB)
    (md : MessageCreateRequest) (newId : String) (emitOk : Bool) :
    emitsAfterCommit (handleCreateMessage ms db md newId emitOk).trace := by
  unfold handleCreateMessage
  cases hv : validateRequest md with
  | error e =>
    intro i c m hi
    simp at hi
  | ok md' =>
    cases hres : (create_message ms db md' newId emitOk).result with
    | error err =>
      apply emitsAfterCommit_of_no_deliver
      intro e he
      exact ((create_message_err hres).2 e he).1
    | ok row =>
      obtain ⟨pre, hpre, hrow, hdb, htr, hpar⟩ := create_message_ok hres
      cases emitOk with
      | true =>
        rw [if_pos rfl] at htr
        rw [htr]
        exact emitsAfterCommit_append (fun e he => (hpre e he).1)
      | false =>
        rw [if_neg (by simp)] at htr
        rw [htr]
        apply emitsAfterCommit_of_no_deliver
        intro e he
        rcases List.mem_append.mp he with h1 | h2
        · exact (hpre e h1).1
        · simp only [List.mem_cons, List.not_mem_nil, or_false] at h2
          rcases h2 with rfl | rfl <;> rfl

/-- C2 witness: in a concrete successful post, the delivery at trace
index 3 is preceded by the commit of the same message. -/
theorem new_message_after_commit_witness :
    ∃ j : Nat, j < 3 ∧
      (handleCreateMessage (run [Op.join "A" "R1"]) ⟨["u1"], ["R1"], []⟩
          ⟨"hello", "u1", "R1", false, none⟩ "m1" true).trace[j]? =
        some (Effect.dbCommit ⟨"m1", "hello", "u1", "R1", false, none⟩) :=
  new_message_after_commit (run [Op.join "A" "R1"]) ⟨["u1"], ["R1"], []⟩
    ⟨"hello", "u1", "R1", false, none⟩ "m1" true 3 "A"
    ⟨"m1", "hello", "u1", "R1", false, none⟩ (by decide)

/-- C4: a failed new_message emission after the commit is logged and
does not change the endpoint's outcome: result and final database equal
those of a successful emission, the created message stays persisted
(no rollback), and the trace contains exactly one commit (no retry). -/
theorem broadcast_failure_isolated (ms : MState) (db : DB)
    (md : MessageCreateRequest) (newId : String) :
    (create_message ms db md newId false).result =
      (create_message ms db md newId true).result ∧
    (create_message ms db md newId false).db =
      (create_message ms db md newId true).db ∧
    (∀ m, (create_message ms db md newId false).result = .ok m →
      m ∈ (create_message ms db md newId false).db.messages ∧
      Effect.logError "emit" ∈ (create_message ms db md newId false).trace ∧
      (create_message ms db md newId false).trace.filter isCommit =
        [Effect.dbCommit m]) := by
  obtain ⟨hres, hdb⟩ := create_message_emit_agnostic ms db md newId
  refine ⟨hres, hdb, ?_⟩
  intro m h
  obtain ⟨pre, hpre, hrow, hdbm, htr, _⟩ := create_message_ok h
  rw [if_neg (by simp)] at htr
  refine ⟨?_, ?_, ?_⟩
  · rw [hdbm]
    simp
  · rw [htr]
    simp
  · rw [htr, List.filter_append]
    have hpre0 : pre.filter isCommit = [] := by
      rw [List.filter_eq_nil_iff]
      intro e he
      simp [(hpre e he).2]
    rw [hpre0]
    simp [isCommit]

/-- C4 witness: a concrete post whose emission fails still persists the
message, logs the failure, and commits exactly once. -/
theorem broadcast_failure_isolated_witness :
    (⟨"m1", "hello", "u1", "R1", false, none⟩ : MessageRow) ∈
      (create_message (run [Op.join "A" "R1"]) ⟨["u1"], ["R1"], []⟩
        ⟨"hello", "u1", "R1", false, none⟩ "m1" false).db.messages ∧
    Effect.logError "emit" ∈
      (create_message (run [Op.join "A" "R1"]) ⟨["u1"], ["R1"], []⟩
        ⟨"hello", "u1", "R1", false, none⟩ "m1" false).trace ∧
    (create_message (run [Op.join "A" "R1"]) ⟨["u1"], ["R1"], []⟩
        ⟨"hello", "u1", "R1", false, none⟩ "m1" false).trace.filter isCommit =
      [Effect.dbCommit ⟨"m1", "hello", "u1", "R1", false, none⟩] :=
  (broadcast_failure_isolated (run [Op.join "A" "R1"]) ⟨["u1"], ["R1"], []⟩
    ⟨"hello", "u1", "R1", false, none⟩ "m1").2.2
    ⟨"m1", "hello", "u1", "R1", false, none⟩ (by decide)

/-- C9 counterexample: a request carrying a parent_message_id value
(the blank string) with `is_reply = false` does not fail — creation
succeeds, because all truthiness checks treat the blank string as
absent. -/
theorem reply_flag_counterexample :
    (handleCreateMessage MState.empty ⟨["u1"], ["r1"], []⟩
        ⟨"hi", "u1", "r1", false, some ""⟩ "m1" true).result =
      .ok ⟨"m1", "hi", "u1", "r1", false, some ""⟩ := by
  decide

/-- C9 (amended): every message accepted by the pipeline satisfies
`is_reply = true` iff a non-blank `parent_message_id` is set and refers
to an existing message; creation fails with a validation error when
`is_reply` is true with an absent or blank parent, or when a non-blank
parent is given with `is_reply` false (a blank parent with
`is_reply = false` is treated as absent and accepted); a reply whose
non-blank parent does not exist fails with a not-found error. -/
theorem reply_invariant (ms : MState) (db : DB) (md : MessageCreateRequest)
    (newId : String) (emitOk : Bool) :
    (∀ m, (handleCreateMessage ms db md newId emitOk).result = .ok m →
      m ∈ (handleCreateMessage ms db md newId emitOk).db.messages ∧
      (m.is_reply = true ↔ ∃ p, m.parent_message_id = some p ∧
        p.isEmpty = false ∧ (findMessage db p).isSome = true)) ∧
    (md.is_reply = true → strFalsy md.parent_message_id = true →
      ∃ e, (handleCreateMessage ms db md newId emitOk).result =
        .error (.validation e)) ∧
    (md.is_reply = false → strFalsy md.parent_message_id = false →
      ∃ e, (handleCreateMessage ms db md newId emitOk).result =
        .error (.validation e)) ∧
    (∀ md' p, validateRequest md = .ok md' →
      md.user_id ∈ db.users → md.chatroom_id ∈ db.chatrooms →
      md.is_reply = true → md.parent_message_id = some p →
      findMessage db p = none →
      (handleCreateMessage ms db md newId emitOk).result =
        .error .parentNotFound) := by
  refine ⟨?_, ?_, ?_, ?_⟩
  · intro m h
    cases hv : validateRequest md with
    | error e =>
      have hred : handleCreateMessage ms db md newId emitOk =
          ⟨.error (.validation e), db, []⟩ := by
        unfold handleCreateMessage
        rw [hv]
      rw [hred] at h
      exact Except.noConfusion h
    | ok md' =>
      have hred : handleCreateMessage ms db md newId emitOk =
          create_message ms db md' newId emitOk := by
        unfold handleCreateMessage
        rw [hv]
      rw [hred] at h ⊢
      obtain ⟨e1, e2, e3, e4, hA, hB⟩ := validateRequest_ok hv
      obtain ⟨pre, hpre, hrow, hdbm, htr, hpar⟩ := create_message_ok h
      constructor
      · rw [hdbm]
        simp [hrow]
      · subst hrow
        simp only [newRow]
        rw [e3, e4]
        cases hmr : md.is_reply with
        | true =>
          have hfa : strFalsy md.parent_message_id = false := by
            rw [hmr] at hA
            simpa using hA
          cases hpm : md.parent_message_id with
          | none =>
            rw [hpm] at hfa
            simp [strFalsy] at hfa
          | some p =>
            have hpe : p.isEmpty = false := by
              rw [hpm] at hfa
              simpa [strFalsy] using hfa
            have hcond :
                (md'.is_reply && !strFalsy md'.parent_message_id) = true := by
              rw [e3, e4, hmr, hpm]
              simp [strFalsy, hpe]
            have hsome := hpar hcond
            rw [e4, hpm] at hsome
            simp only [Option.getD_some] at hsome
            exact ⟨fun _ => ⟨p, rfl, hpe, hsome⟩, fun _ => rfl⟩
        | false =>
          have hfb : strFalsy md.parent_message_id = true := by
            rw [hmr] at hB
            simpa using hB
          constructor
          · intro hcontra
            exact Bool.noConfusion hcontra
          · rintro ⟨p, hp, hpe, _⟩
            rw [hp] at hfb
            simp [strFalsy] at hfb
            rw [hfb] at hpe
            exact Bool.noConfusion hpe
  · intro h1 h2
    cases hv : validateRequest md with
    | error e =>
      refine ⟨e, ?_⟩
      unfold handleCreateMessage
      rw [hv]
    | ok md' =>
      obtain ⟨_, _, _, _, hA, _⟩ := validateRequest_ok hv
      rw [h1, h2] at hA
      exact absurd hA (by simp)
  · intro h1 h2
    cases hv : validateRequest md with
    | error e =>
      refine ⟨e, ?_⟩
      unfold handleCreateMessage
      rw [hv]
    | ok md' =>
      obtain ⟨_, _, _, _, _, hB⟩ := validateRequest_ok hv
      rw [h1, h2] at hB
      exact absurd hB (by simp)
  · intro md' p hv hu hc hr hpm hfind
    have hred : handleCreateMessage ms db md newId emitOk =
        create_message ms db md' newId emitOk := by
      unfold handleCreateMessage
      rw [hv]
    rw [hred]
    obtain ⟨e1, e2, e3, e4, hA, hB⟩ := validateRequest_ok hv
    have hpe : p.isEmpty = false := by
      rw [hr, hpm] at hA
      simpa [strFalsy] using hA
    unfold create_message
    rw [if_pos (by rw [e1]; exact hu), if_pos (by rw [e2]; exact hc)]
    have hcond : (md'.is_reply && !strFalsy md'.parent_message_id) = true := by
      rw [e3, e4, hr, hpm]
      simp [strFalsy, hpe]
    rw [if_pos hcond]
    have hfind' : findMessage db (md'.parent_message_id.getD "") = none := by
      rw [e4, hpm]
      simpa using hfind
    rw [hfind']

/-- C9 witness: a reply with an existing non-blank parent is persisted
and satisfies the amended invariant's right-hand side; a reply without a
parent fails validation. -/
theorem reply_invariant_witness :
    (⟨"m1", "hi", "u1", "r1", true, some "p0"⟩ : MessageRow) ∈
      (handleCreateMessage MState.empty
        ⟨["u1"], ["r1"], [⟨"p0", "x", "u1", "r1", false, none⟩]⟩
        ⟨"hi", "u1", "r1", true, some "p0"⟩ "m1" true).db.messages ∧
    (∃ e, (handleCreateMessage MState.empty
        ⟨["u1"], ["r1"], [⟨"p0", "x", "u1", "r1", false, none⟩]⟩
        ⟨"hi", "u1", "r1", true, none⟩ "m1" true).result =
      .error (.validation e)) := by
  constructor
  · exact ((reply_invariant MState.empty
      ⟨["u1"], ["r1"], [⟨"p0", "x", "u1", "r1", false, none⟩]⟩
      ⟨"hi", "u1", "r1", true, some "p0"⟩ "m1" true).1
      ⟨"m1", "hi", "u1", "r1", true, some "p0"⟩ (by decide)).1
  · exact (reply_invariant MState.empty
      ⟨["u1"], ["r1"], [⟨"p0", "x", "u1", "r1", false, none⟩]⟩
      ⟨"hi", "u1", "r1", true, none⟩ "m1" true).2.1 rfl (by decide)

/-- C10: the parent existence check is by message id only, not scoped to
the chatroom: a reply targeting one chatroom whose parent lives in a
different chatroom succeeds, producing a reply whose chatroom_id differs
from its parent's chatroom_id. -/
theorem parent_check_not_room_scoped (ms : MState) (db : DB)
    (md : MessageCreateRequest) (newId : String) (emitOk : Bool)
    (p : MessageRow)
    (hu : md.user_id ∈ db.users) (hc : md.chatroom_id ∈ db.chatrooms)
    (hr : md.is_reply = true) (hp : md.parent_message_id = some p.id)
    (hpe : p.id.isEmpty = false)
    (hfind : findMessage db p.id = some p)
    (hdiff : p.chatroom_id ≠ md.chatroom_id)
    (hinit : messageInitOk md.message_text md.is_reply
      md.parent_message_id = true) :
    ∃ m, (create_message ms db md newId emitOk).result = .ok m ∧
      m.chatroom_id = md.chatroom_id ∧
      m.parent_message_id = some p.id ∧
      m.chatroom_id ≠ p.chatroom_id := by
  refine ⟨newRow md newId, ?_, rfl, ?_, ?_⟩
  · unfold create_message
    rw [if_pos hu, if_pos hc]
    have hcond : (md.is_reply && !strFalsy md.parent_message_id) = true := by
      rw [hr, hp]
      simp [strFalsy, hpe]
    rw [if_pos hcond]
    have hfind' : findMessage db (md.parent_message_id.getD "") = some p := by
      rw [hp]
      simpa using hfind
    rw [hfind']
    unfold finishCreate
    rw [if_pos hinit]
    cases emitOk <;> rfl
  · show md.parent_message_id = some p.id
    exact hp
  · show md.chatroom_id ≠ p.chatroom_id
    exact fun he => hdiff he.symm

/-- C10 witness: a reply posted to chatroom r1 whose parent belongs to
chatroom r2 is created successfully. -/
theorem parent_check_not_room_scoped_witness :
    ∃ m, (create_message MState.empty
        ⟨["u1"], ["r1", "r2"], [⟨"p0", "x", "u1", "r2", false, none⟩]⟩
        ⟨"hi", "u1", "r1", true, some "p0"⟩ "m1" true).result = .ok m ∧
      m.chatroom_id = "r1" ∧ m.parent_message_id = some "p0" ∧
      m.chatroom_id ≠ "r2" := by
  obtain ⟨m, h1, h2, h3, h4⟩ := parent_check_not_room_scoped MState.empty
    ⟨["u1"], ["r1", "r2"], [⟨"p0", "x", "u1", "r2", false, none⟩]⟩
    ⟨"hi", "u1", "r1", true, some "p0"⟩ "m1" true
    ⟨"p0", "x", "u1", "r2", false, none⟩
    (by decide) (by decide) rfl rfl (by decide) (by decide) (by decide)
    (by decide)
  exact ⟨m, h1, h2, h3, h4⟩

end Chatty
